import Mathlib

/-!
Verification development for the Michael Page jobs scraper.

The repository contains several near-duplicate crawler variants:
* `src/src/main.js` — two Playwright-based variants (API capture, listing
  discovery, detail enrichment, pagination);
* `src/unnamed/part_000` — a Cheerio-based variant and a hybrid variant
  (Playwright listing phase, concurrent Cheerio detail phase);
* `src/unnamed/part_001` — the README documents.

This file shallowly embeds the data model and the operations of those
variants: JSON values, JS truthiness, the text-cleaning utility, the
JSON-LD extraction, the detail-record builder, the listing-link dedup,
the sequential crawler loop of `main.js`, the hybrid detail phase, and
the input normalization.  DOM queries (`$('h1')`, selector text, API
captures) are modelled as pre-extracted inputs carried by page
structures; everything downstream of them is translated from the source.
-/

/-- JSON values, as produced by `JSON.parse` and consumed throughout the
scraper.  Numbers are restricted to integers (every number the scraper
manipulates — salary bounds, identifiers — is integral). -/
inductive Json where
  | str (s : String)
  | num (n : Int)
  | bool (b : Bool)
  | null
  | arr (xs : List Json)
  | obj (fields : List (String × Json))

/-- JavaScript truthiness of a JSON value: `''`, `0`, `false`, `null`
are falsy; strings, nonzero numbers, `true`, arrays and objects are
truthy (arrays and objects are always truthy in JS). -/
def jsTruthy : Json → Bool
  | .str s => s ≠ ""
  | .num n => n ≠ 0
  | .bool b => b
  | .null => false
  | .arr _ => true
  | .obj _ => true

/-- First binding of a key in an association list (JS property access). -/
def lookupKey : List (String × Json) → String → Option Json
  | [], _ => none
  | (k', v) :: rest, k => if k' = k then some v else lookupKey rest k

/-- `o.k` property access: a key lookup on an object, `undefined`
(`none`) on anything else — matching `?.` access on non-objects. -/
def jGet : Json → String → Option Json
  | .obj fs, k => lookupKey fs k
  | _, _ => none

/-- `o?.k` through an optional object. -/
def jGetOpt (o : Option Json) (k : String) : Option Json :=
  o.bind (fun j => jGet j k)

/-- `a || b` where `a` is a possibly-undefined JS value and `b` a JSON
value: yields `a` when truthy, else `b`. -/
def jOr (a : Option Json) (b : Json) : Json :=
  match a with
  | some v => if jsTruthy v then v else b
  | none => b

/-- `a || null` on a possibly-undefined JS value. -/
def jOrNull (a : Option Json) : Json := jOr a Json.null

/-- `a || b || null` on two possibly-undefined JS values. -/
def jOrNull2 (a b : Option Json) : Json := jOr a (jOrNull b)

/-- `s || j`: a string falls through to `j` when empty. -/
def sOr (s : String) (j : Json) : Json := if s ≠ "" then Json.str s else j

/-- `s.trim() || null` on a string extracted from the page. -/
def strOrNull (s : String) : Json := sOr s Json.null

mutual
/-- JS string coercion of a JSON value (template-literal interpolation):
strings pass through, numbers print, arrays join with `,`, objects print
as `[object Object]`. -/
def jsToStr : Json → String
  | .str s => s
  | .num n => toString n
  | .bool b => if b then "true" else "false"
  | .null => "null"
  | .arr xs => String.intercalate "," (jsToStrList xs)
  | .obj _ => "[object Object]"

/-- String coercion of each element of a list of JSON values. -/
def jsToStrList : List Json → List String
  | [] => []
  | x :: r => jsToStr x :: jsToStrList r
end

/-- `${x || ''}` interpolation of a possibly-undefined value: empty
string when absent or falsy, JS string coercion otherwise. -/
def interpOrEmpty (a : Option Json) : String :=
  match a with
  | some v => if jsTruthy v then jsToStr v else ""
  | none => ""

/-! ## Text utilities (`cleanText`, `src/src/main.js` lines 62–71) -/

/-- Whitespace class of the JS `\s` regex (ASCII part). -/
def isWs (c : Char) : Bool :=
  c = ' ' || c = '\t' || c = '\n' || c = '\r' || c = '\x0b' || c = '\x0c'

/-- `replace(/\s+/g, ' ')`: collapse every maximal whitespace run to a
single space.  The flag records whether the previous character was
whitespace (in which case further whitespace is dropped). -/
def collapseWsAux : Bool → List Char → List Char
  | _, [] => []
  | prev, c :: r =>
    if isWs c then
      if prev then collapseWsAux true r else ' ' :: collapseWsAux true r
    else c :: collapseWsAux false r

/-- Collapse whitespace runs in a character list. -/
def collapseWs (l : List Char) : List Char := collapseWsAux false l

/-- `.trim()`: drop leading and trailing whitespace. -/
def trimChars (l : List Char) : List Char :=
  ((l.dropWhile isWs).reverse.dropWhile isWs).reverse

/-- `replace(/\s+/g, ' ').trim()` — the normalization applied by
`cleanText` on both its branches. -/
def normalizeWs (s : String) : String := ⟨trimChars (collapseWs s.data)⟩

/-- `replace(/<[^>]*>/g, ' ')` driven by fuel (one unit per consumed
character): a `<` opens a candidate tag; if a closing `>` follows, the
whole tag is replaced by a single space; a `<` with no later `>` does
not match the regex and the remainder is kept verbatim. -/
def stripTagsFuel : Nat → List Char → List Char
  | 0, l => l
  | _ + 1, [] => []
  | fuel + 1, c :: r =>
    if c = '<' then
      match r.dropWhile (fun d => d ≠ '>') with
      | _ :: rest => ' ' :: stripTagsFuel fuel rest
      | [] => c :: r
    else c :: stripTagsFuel fuel r

/-- Regex-based tag stripping used by `cleanText`'s fallback branch. -/
def stripTags (s : String) : String := ⟨stripTagsFuel s.length s.data⟩

/-- `cleanText` (`src/src/main.js` 62–71, `src/unnamed/part_000`
262–271).  `html` is `none` for `null`/`undefined` input; `parse`
models the cheerio load-and-text extraction, an external call that
either returns the document text or throws (`Except.error`): the
`try`/`catch` falls back to regex tag stripping.  Both branches collapse
whitespace runs and trim. -/
def cleanTextJS (html : Option String) (parse : String → Except Unit String) : String :=
  match html with
  | none => ""
  | some h =>
    if h = "" then ""
    else
      match parse h with
      | .ok t => normalizeWs t
      | .error _ => normalizeWs (stripTags h)

/-- The cleanText effect used inside the record builders, with cheerio's
text extraction modelled as tag removal on the successful branch. -/
def cleanTextRun (s : String) : String := normalizeWs (stripTags s)

/-! ## Input normalization (`src/src/main.js` lines 23–24) -/

/-- `Number.MAX_SAFE_INTEGER`. -/
def maxSafeInteger : Int := 2 ^ 53 - 1

/-- `RESULTS_WANTED = Number.isFinite(+raw) ? Math.max(1, +raw) :
Number.MAX_SAFE_INTEGER`.  `some n` is the finite coercion of the
input, `none` a non-numeric coercion (`NaN`/`Infinity`). -/
def effectiveResultsWanted : Option Int → Int
  | some n => max 1 n
  | none => maxSafeInteger

/-- `MAX_PAGES = Number.isFinite(+raw) ? Math.max(1, +raw) : 999`. -/
def effectiveMaxPages : Option Int → Int
  | some n => max 1 n
  | none => 999

/-! ## A model of `JSON.parse`

The scraper hands each `<script type="application/ld+json">` text to
`JSON.parse` inside `try`/`catch`.  The parser below implements
ECMA-404 JSON restricted to the shapes the scraper meets (integral
numbers, the standard single-character escapes); crucially it is
faithful on the behaviour the claims depend on: a raw control character
(code point below 0x20) inside a string literal is a syntax error. -/

/-- JSON insignificant whitespace. -/
def jsonWs (c : Char) : Bool := c = ' ' || c = '\n' || c = '\t' || c = '\r'

/-- Decode a character following a backslash in a JSON string literal. -/
def unescapeChar (e : Char) : Option Char :=
  if e = 'n' then some '\n'
  else if e = 't' then some '\t'
  else if e = 'r' then some '\r'
  else if e = 'b' then some '\x08'
  else if e = 'f' then some '\x0c'
  else if e = '"' then some '"'
  else if e = '\\' then some '\\'
  else if e = '/' then some '/'
  else none

/-- Parse the body of a JSON string literal (after the opening quote),
returning the decoded characters and the remaining input.  A raw
control character is rejected, exactly as `JSON.parse` rejects it. -/
def parseStrBody : List Char → Option (List Char × List Char)
  | [] => none
  | c :: rest =>
    if c = '"' then some ([], rest)
    else if c = '\\' then
      match rest with
      | [] => none
      | e :: rest2 =>
        match unescapeChar e, parseStrBody rest2 with
        | some ec, some (s, r) => some (ec :: s, r)
        | _, _ => none
    else if c.toNat < 32 then none
    else
      match parseStrBody rest with
      | some (s, r) => some (c :: s, r)
      | none => none

/-- Parse a nonempty digit run as a natural number. -/
def parseNatued (cs : List Char) : Option (Nat × List Char) :=
  let ds := cs.takeWhile Char.isDigit
  if ds.isEmpty then none
  else some (ds.foldl (fun a c => a * 10 + (c.toNat - 48)) 0, cs.dropWhile Char.isDigit)

/-- Parse an (integral) JSON number. -/
def parseNumber (cs : List Char) : Option (Json × List Char) :=
  match cs with
  | '-' :: rest => (parseNatued rest).map (fun p => (Json.num (-(p.1 : Int)), p.2))
  | _ => (parseNatued cs).map (fun p => (Json.num (p.1 : Int), p.2))

/-- Parse the JSON literals `true`, `false`, `null`. -/
def parseLiteral : List Char → Option (Json × List Char)
  | 't' :: 'r' :: 'u' :: 'e' :: r => some (Json.bool true, r)
  | 'f' :: 'a' :: 'l' :: 's' :: 'e' :: r => some (Json.bool false, r)
  | 'n' :: 'u' :: 'l' :: 'l' :: r => some (Json.null, r)
  | _ => none

mutual
/-- Parse one JSON value; the fuel bounds the recursion depth. -/
def parseVal : Nat → List Char → Option (Json × List Char)
  | 0, _ => none
  | fuel + 1, cs =>
    match cs.dropWhile jsonWs with
    | [] => none
    | c :: rest =>
      if c = '"' then (parseStrBody rest).map (fun p => (Json.str ⟨p.1⟩, p.2))
      else if c = '\x7b' then parseObjBody fuel rest
      else if c = '[' then parseArrBody fuel rest
      else if c = 't' || c = 'f' || c = 'n' then parseLiteral (c :: rest)
      else if c = '-' || c.isDigit then parseNumber (c :: rest)
      else none

/-- Parse an object body after the opening brace. -/
def parseObjBody : Nat → List Char → Option (Json × List Char)
  | 0, _ => none
  | fuel + 1, cs =>
    match cs.dropWhile jsonWs with
    | '\x7d' :: r => some (Json.obj [], r)
    | other => parseMembers fuel other []

/-- Parse the members of a nonempty object. -/
def parseMembers : Nat → List Char → List (String × Json) → Option (Json × List Char)
  | 0, _, _ => none
  | fuel + 1, cs, acc =>
    match cs.dropWhile jsonWs with
    | '"' :: rest =>
      match parseStrBody rest with
      | none => none
      | some (k, r1) =>
        match r1.dropWhile jsonWs with
        | ':' :: r2 =>
          match parseVal fuel r2 with
          | none => none
          | some (v, r3) =>
            match r3.dropWhile jsonWs with
            | ',' :: r4 => parseMembers fuel r4 (acc ++ [(⟨k⟩, v)])
            | '\x7d' :: r4 => some (Json.obj (acc ++ [(⟨k⟩, v)]), r4)
            | _ => none
        | _ => none
    | _ => none

/-- Parse an array body after the opening bracket. -/
def parseArrBody : Nat → List Char → Option (Json × List Char)
  | 0, _ => none
  | fuel + 1, cs =>
    match cs.dropWhile jsonWs with
    | ']' :: r => some (Json.arr [], r)
    | other => parseElems fuel other []

/-- Parse the elements of a nonempty array. -/
def parseElems : Nat → List Char → List Json → Option (Json × List Char)
  | 0, _, _ => none
  | fuel + 1, cs, acc =>
    match parseVal fuel cs with
    | none => none
    | some (v, r) =>
      match r.dropWhile jsonWs with
      | ',' :: r2 => parseElems fuel r2 (acc ++ [v])
      | ']' :: r2 => some (Json.arr (acc ++ [v]), r2)
      | _ => none
end

/-- `JSON.parse`: parse one value, allow trailing whitespace only.
`none` models a thrown `SyntaxError`. -/
def jsonParse (s : String) : Option Json :=
  match parseVal (3 * s.length + 8) s.data with
  | some (v, rest) => if (rest.dropWhile jsonWs).isEmpty then some v else none
  | none => none

/-! ## The control-character sanitizer

No sanitizer exists anywhere under `src/` — each variant hands the raw
script text straight to `JSON.parse` and silently skips the block on
failure.  The definitions below model the sanitizer the spec describes,
to compare its claimed behaviour against the code's. -/

/-- Modelled from the spec: the string-aware control-character
sanitizer of §4.3, absent from `src/`.  It walks the text with two
boolean states — inside a quoted string, and previous character was an
escape — and rewrites literal newline, carriage-return, tab, form-feed
and backspace characters inside strings into their two-character escape
sequences; a quote toggles the in-string state unless escaped; a
backslash inside a string escapes exactly the next character. -/
def sanitizeChars : Bool → Bool → List Char → List Char
  | _, _, [] => []
  | inStr, esc, c :: rest =>
    if inStr then
      if esc then c :: sanitizeChars true false rest
      else if c = '\\' then c :: sanitizeChars true true rest
      else if c = '"' then c :: sanitizeChars false false rest
      else if c = '\n' then '\\' :: 'n' :: sanitizeChars true false rest
      else if c = '\r' then '\\' :: 'r' :: sanitizeChars true false rest
      else if c = '\t' then '\\' :: 't' :: sanitizeChars true false rest
      else if c = '\x0c' then '\\' :: 'f' :: sanitizeChars true false rest
      else if c = '\x08' then '\\' :: 'b' :: sanitizeChars true false rest
      else c :: sanitizeChars true false rest
    else if c = '"' then c :: sanitizeChars true false rest
    else c :: sanitizeChars false false rest

/-- Modelled from the spec: the sanitizer, on strings. -/
def sanitize (s : String) : String := ⟨sanitizeChars false false s.data⟩

/-- The characters the sanitizer rewrites. -/
def isCtlTarget (c : Char) : Bool :=
  c = '\n' || c = '\r' || c = '\t' || c = '\x0c' || c = '\x08'

/-- "No raw control characters inside string literals", tracked by the
same two-boolean state machine the sanitizer uses. -/
def cleanChars : Bool → Bool → List Char → Bool
  | _, _, [] => true
  | inStr, esc, c :: rest =>
    if inStr then
      if esc then cleanChars true false rest
      else if c = '\\' then cleanChars true true rest
      else if c = '"' then cleanChars false false rest
      else if isCtlTarget c then false
      else cleanChars true false rest
    else if c = '"' then cleanChars true false rest
    else cleanChars false false rest

/-- A string with no raw control characters inside string literals. -/
def cleanJsonText (s : String) : Bool := cleanChars false false s.data

/-! ## JSON-LD extraction

`extractFromJsonLd` (`src/unnamed/part_000` lines 60–84) walks the
`ld+json` script blocks, parses each, and returns a field summary of
the first entity whose type tag is (or contains) `JobPosting`.  The
Playwright variants (`src/src/main.js` lines 351–365) keep the raw
JSON-LD object instead; the detail builder below receives it directly. -/

/-- The lightweight posting summary `extractFromJsonLd` returns. -/
structure PostingSummary where
  title : Json
  company : Json
  date_posted : Json
  description_html : Json
  location : Json
  salary : Json
  job_type : Json

/-- `const t = e['@type'] || e.type`. -/
def typeTag (e : Json) : Option Json :=
  match jGet e "@type" with
  | some v => if jsTruthy v then some v else jGet e "type"
  | none => jGet e "type"

/-- `t === 'JobPosting' || (Array.isArray(t) && t.includes('JobPosting'))`. -/
def isJobPostingTag (t : Option Json) : Bool :=
  match t with
  | some (.str s) => s = "JobPosting"
  | some (.arr xs) => xs.any (fun x => match x with | .str s => s = "JobPosting" | _ => false)
  | _ => false

/-- `(e.jobLocation && e.jobLocation.address && (e.jobLocation.address.addressLocality
|| e.jobLocation.address.addressRegion)) || null`. -/
def summaryLocation (e : Json) : Json :=
  match jGet e "jobLocation" with
  | some jl =>
    if jsTruthy jl then
      match jGet jl "address" with
      | some addr =>
        if jsTruthy addr then jOrNull2 (jGet addr "addressLocality") (jGet addr "addressRegion")
        else Json.null
      | none => Json.null
    else Json.null
  | none => Json.null

/-- The summary object built for a matching entity
(`src/unnamed/part_000` lines 70–78). -/
def summaryOf (e : Json) : PostingSummary :=
  { title := jOrNull2 (jGet e "title") (jGet e "name")
  , company := jOrNull (jGetOpt (jGet e "hiringOrganization") "name")
  , date_posted := jOrNull (jGet e "datePosted")
  , description_html := jOrNull (jGet e "description")
  , location := summaryLocation e
  , salary := jOrNull (jGetOpt (jGet e "baseSalary") "value")
  , job_type := jOrNull (jGet e "employmentType") }

/-- The inner entity loop: skip falsy entries (`if (!e) continue`),
return the first entity whose type tag matches `JobPosting`. -/
def findPosting : List Json → Option Json
  | [] => none
  | e :: rest =>
    if jsTruthy e then
      if isJobPostingTag (typeTag e) then some e else findPosting rest
    else findPosting rest

/-- `extractFromJsonLd` (`src/unnamed/part_000` 60–84): per script
block, `JSON.parse` the text; a parse failure is caught and the block
is skipped with no retry; a parsed value is wrapped into a singleton
unless it is already an array; the first `JobPosting` entity yields the
summary. -/
def extractFromJsonLd : List String → Option PostingSummary
  | [] => none
  | s :: rest =>
    match jsonParse s with
    | none => extractFromJsonLd rest
    | some parsed =>
      let entities := match parsed with | .arr xs => xs | v => [v]
      match findPosting entities with
      | some e => some (summaryOf e)
      | none => extractFromJsonLd rest

/-- Modelled from the spec: the §4.3 extractor, which on a parse
failure applies the control-character sanitizer and retries parsing
exactly once before skipping the block.  Used only to compare the
spec's claimed behaviour with `extractFromJsonLd` above. -/
def extractFromJsonLdSpec : List String → Option PostingSummary
  | [] => none
  | s :: rest =>
    match (match jsonParse s with | some v => some v | none => jsonParse (sanitize s)) with
    | none => extractFromJsonLdSpec rest
    | some parsed =>
      let entities := match parsed with | .arr xs => xs | v => [v]
      match findPosting entities with
      | some e => some (summaryOf e)
      | none => extractFromJsonLdSpec rest

/-- `main.js` 351–365: the Playwright variants scan every script block;
within one block the first `JobPosting` item is taken, but later blocks
overwrite earlier ones (`jsonLd = item` inside a continuing `.each`).
Parse failures are caught and skipped with no retry. -/
def extractJsonLdMain (scripts : List String) : Option Json :=
  scripts.foldl
    (fun acc text =>
      match jsonParse text with
      | none => acc
      | some parsed =>
        let items := match parsed with | .arr xs => xs | v => [v]
        match items.find? (fun it =>
          match jGet it "@type" with
          | some (.str s) => s = "JobPosting"
          | _ => false) with
        | some it => some it
        | none => acc)
    none

/-! ## The detail record builder (`src/src/main.js` lines 346–443,
mirrored by the hybrid detail crawler `src/unnamed/part_000` 396–494)

DOM extractions are modelled as pre-extracted inputs: `h1Text` is
`$('h1').first().text().trim()`, `titleText` is `$('title').text()`,
`descFallback` is the joined `h2`-section text (or the `article`/`main`
excerpt), `locFallback` and `salaryFallback` the trimmed texts of the
location and salary selectors.  `jsonLd` is the selected `JobPosting`
structured block, `none` when no block parsed. -/

structure DetailPage where
  jsonLd : Option Json
  h1Text : String
  titleText : String
  descFallback : String
  locFallback : String
  salaryFallback : String

/-- The final output record; every key of the `data` object literal,
with `Json.null` for JS `null`. -/
structure JobRecord where
  title : Json
  company : Json
  location : Json
  salary : Json
  job_type : Json
  date_posted : Json
  description_html : Json
  description_text : Json
  url : Json
  scrapedAt : Json

/-- `$('title').text().split('|')[0]` — the text up to the first bar. -/
def splitBarHead (s : String) : String := ⟨s.data.takeWhile (fun c => c ≠ '|')⟩

/-- `.trim()` on a string. -/
def trimStr (s : String) : String := ⟨trimChars s.data⟩

/-- `jsonLd?.title || jsonLd?.name || $('h1')...trim() ||
$('title').text().split('|')[0]?.trim()` (lines 368–370). -/
def titleOf (p : DetailPage) : Json :=
  jOr (jGetOpt p.jsonLd "title")
    (jOr (jGetOpt p.jsonLd "name")
      (sOr p.h1Text (Json.str (trimStr (splitBarHead p.titleText)))))

/-- `let description = jsonLd?.description || ''` with the DOM fallback
when empty (lines 373–388). -/
def descriptionOf (p : DetailPage) : String :=
  let d :=
    match jGetOpt p.jsonLd "description" with
    | some v => if jsTruthy v then jsToStr v else ""
    | none => ""
  if d = "" then p.descFallback else d

/-- Location extraction (lines 391–401): JSON-LD address parts joined
by comma, falling back to the page's location selector text. -/
def locationOf (p : DetailPage) : Json :=
  let fromLd : Option String :=
    match jGetOpt p.jsonLd "jobLocation" with
    | some jl =>
      if jsTruthy jl then
        let loc := match jl with | .arr (x :: _) => x | .arr [] => Json.null | v => v
        match jGet loc "address" with
        | some addr =>
          if jsTruthy addr then
            some (String.intercalate ", "
              (([jGet addr "addressLocality", jGet addr "addressRegion"]).filterMap
                (fun o => match o with
                  | some v => if jsTruthy v then some (jsToStr v) else none
                  | none => none)))
          else none
        | none => none
      else none
    | none => none
  match fromLd with
  | some s => if s ≠ "" then Json.str s else strOrNull p.locFallback
  | none => strOrNull p.locFallback

/-- Salary extraction (lines 403–419): a string `baseSalary` passes
through; an object decomposes via its `value` (range or scalar,
interpolated with the currency); only when the structured posting
yields nothing does the page's salary selector text apply. -/
def salaryOf (p : DetailPage) : Json :=
  let fromLd : Option String :=
    match jGetOpt p.jsonLd "baseSalary" with
    | some bs =>
      if jsTruthy bs then
        match bs with
        | .str s => some s
        | _ =>
          match jGet bs "value" with
          | some v =>
            if jsTruthy v then
              match v with
              | .obj _ =>
                some (trimStr (interpOrEmpty (jGet v "minValue") ++ " - " ++
                  interpOrEmpty (jGet v "maxValue") ++ " " ++ interpOrEmpty (jGet bs "currency")))
              | _ => some (jsToStr v ++ " " ++ interpOrEmpty (jGet bs "currency"))
            else none
          | none => none
      else none
    | none => none
  match fromLd with
  | some s => if s ≠ "" then Json.str s else strOrNull p.salaryFallback
  | none => strOrNull p.salaryFallback

/-- `job_type: jsonLd?.employmentType || (Array.isArray(...) ? join :
null)` (lines 426–427); the array arm is dead in JS because arrays are
truthy, and is kept to mirror the source. -/
def jobTypeOf (p : DetailPage) : Json :=
  match jGetOpt p.jsonLd "employmentType" with
  | some v =>
    if jsTruthy v then v
    else
      match v with
      | .arr xs => Json.str (String.intercalate ", " (jsToStrList xs))
      | _ => Json.null
  | none => Json.null

/-- The `data` object literal (lines 421–433). -/
def buildDetailData (p : DetailPage) (url now : String) : JobRecord :=
  let title := titleOf p
  let description := descriptionOf p
  { title := if jsTruthy title then title else Json.null
  , company := jOrNull (jGetOpt (jGetOpt p.jsonLd "hiringOrganization") "name")
  , location := locationOf p
  , salary := salaryOf p
  , job_type := jobTypeOf p
  , date_posted := jOrNull (jGetOpt p.jsonLd "datePosted")
  , description_html := Json.str description
  , description_text := Json.str (cleanTextRun description)
  , url := Json.str url
  , scrapedAt := Json.str now }

/-- The push site with the title guard (lines 435–441): a record whose
title is falsy is skipped, otherwise it is emitted. -/
def detailEmit (p : DetailPage) (url now : String) : Option JobRecord :=
  let data := buildDetailData p url now
  if jsTruthy data.title then some data else none

/-! ## The Cheerio-variant detail handler (`src/unnamed/part_000`
lines 150–188)

This variant fills missing summary fields from page selectors and then
pushes the item unconditionally — it has no title guard. -/

structure CheerioDetailPage where
  scripts : List String
  h1Text : String
  descSectionsHtml : String
  locText : String
  salText : String
  typeText : String

/-- The item object literal of the Cheerio variant (lines 172–183). -/
structure CheerioItem where
  title : Json
  company : Json
  category : Json
  location : Json
  salary : Json
  job_type : Json
  date_posted : Json
  description_html : Json
  description_text : Json
  url : Json

/-- Build the Cheerio-variant item: `data = extractFromJsonLd($) || {}`
patched field by field from the page, then the item literal with
`|| null` on each field.  `undefined` and `null` summary fields are
both modelled as `Json.null` (each is falsy and each maps to `null`
through `|| null`). -/
def cheerioDetailItem (category : String) (p : CheerioDetailPage) (url : String) : CheerioItem :=
  let d0 := (extractFromJsonLd p.scripts).getD
    ⟨Json.null, Json.null, Json.null, Json.null, Json.null, Json.null, Json.null⟩
  let title := if jsTruthy d0.title then d0.title else strOrNull p.h1Text
  let company := if jsTruthy d0.company then d0.company else Json.null
  let dhtml := if jsTruthy d0.description_html then d0.description_html
               else strOrNull p.descSectionsHtml
  let dtext := if jsTruthy dhtml then Json.str (cleanTextRun (jsToStr dhtml)) else Json.null
  let location := if jsTruthy d0.location then d0.location else strOrNull p.locText
  let salary := if jsTruthy d0.salary then d0.salary else strOrNull p.salText
  let job_type := if jsTruthy d0.job_type then d0.job_type else strOrNull p.typeText
  { title := if jsTruthy title then title else Json.null
  , company := if jsTruthy company then company else Json.null
  , category := strOrNull category
  , location := if jsTruthy location then location else Json.null
  , salary := if jsTruthy salary then salary else Json.null
  , job_type := if jsTruthy job_type then job_type else Json.null
  , date_posted := if jsTruthy d0.date_posted then d0.date_posted else Json.null
  , description_html := if jsTruthy dhtml then dhtml else Json.null
  , description_text := dtext
  , url := Json.str url }

/-- The Cheerio DETAIL handler (lines 150–188): returns early when the
target is reached, otherwise builds the item and pushes it —
unconditionally, with no title guard. -/
def cheerioDetailHandler (RW saved : Nat) (category : String)
    (p : CheerioDetailPage) (url : String) : Option CheerioItem :=
  if RW ≤ saved then none
  else some (cheerioDetailItem category p url)

/-! ## Listing-link discovery and dedup (`src/src/main.js` 258–268,
`src/unnamed/part_000` `findJobLinks` 86–99) -/

/-- `pat` occurs as a substring of `s` (JS `String.prototype.includes`). -/
def containsSub (s pat : String) : Bool := decide (pat.data <:+: s.data)

/-- JS `String.prototype.startsWith`. -/
def startsWithStr (s pre : String) : Bool := decide (pre.data <+: s.data)

/-- `href.startsWith('http') ? href : 'https://www.michaelpage.com' + href`. -/
def fullUrl (href : String) : String :=
  if startsWithStr href "http" then href else "https://www.michaelpage.com" ++ href

/-- The LIST link scan: for each anchor `href`, skip empty and
`javascript:` links, canonicalize, and keep only URLs not yet in the
seen set, which grows as links are found.  Returns the new links in
page order together with the updated seen set. -/
def collectNewLinks : List String → List String → List String × List String
  | [], seen => ([], seen)
  | h :: rest, seen =>
    if h ≠ "" && !containsSub h "javascript:" then
      let u := fullUrl h
      if u ∈ seen then collectNewLinks rest seen
      else
        let p := collectNewLinks rest (u :: seen)
        (u :: p.1, p.2)
    else collectNewLinks rest seen

/-- The canonical URLs of a page's anchors that survive the filter. -/
def canonLinks (hrefs : List String) : List String :=
  hrefs.filterMap (fun h =>
    if h ≠ "" && !containsSub h "javascript:" then some (fullUrl h) else none)

/-- The discovery phase across successive listing pages: each page's
anchors are deduplicated against the seen index accumulated so far, and
the surviving links are appended in order. -/
def discover : List (List String) → List String → List String
  | [], _ => []
  | page :: pages, seen =>
    let p := collectNewLinks page seen
    p.1 ++ discover pages p.2

/-- First-seen deduplication, as the spec words the Pagination
Controller's output: each URL not already seen is kept once, at its
first occurrence, and added to the seen index. -/
def uniqueFirstSeen (seen : List String) : List String → List String
  | [] => []
  | u :: rest =>
    if u ∈ seen then uniqueFirstSeen seen rest
    else u :: uniqueFirstSeen (u :: seen) rest

/-- The seen index after registering a list of URLs. -/
def addAll (seen : List String) : List String → List String
  | [] => seen
  | u :: rest => if u ∈ seen then addAll seen rest else addAll (u :: seen) rest

/-! ## The sequential crawler of `src/src/main.js` (lines 192–459)

The crawler runs with `maxConcurrency: 1`: requests are processed one
at a time from a FIFO queue.  A LIST page first flushes the
API-captured jobs (capped, deduplicated), then scans job links (with
the fallback anchor scan when the primary scan finds none), then either
enqueues detail pages or pushes bare URLs, and finally decides whether
to enqueue the next listing page.  A DETAIL page runs the record
builder behind the cap check and the title guard. -/

structure Config where
  RW : Nat
  MAXP : Nat
  collectDetails : Bool
  now : String

/-- The site as the crawler observes it: for listing page `n`, the
anchors matching `a[href*="/job-detail/"]`, the fallback anchors
(href paired with trimmed link text) and the API-captured job URLs
present when the page is handled; for each detail URL, the detail page,
`none` when the fetch fails after retries. -/
structure Site where
  hrefs : Nat → List String
  fallback : Nat → List (String × String)
  captured : Nat → List String
  detail : String → Option DetailPage

inductive Req where
  | list (pageNo : Nat)
  | detail (url : String)

structure CrawlState where
  saved : Nat
  emitted : Nat
  seen : List String
  queue : List Req
  pagesFetched : Nat

/-- The captured-jobs flush (lines 243–253): for each captured job,
stop at the cap, skip seen URLs, else mark seen, push, count. -/
def pushCaptured (RW : Nat) : List String → CrawlState → CrawlState
  | [], st => st
  | u :: rest, st =>
    if RW ≤ st.saved then st
    else if u ∈ st.seen then pushCaptured RW rest st
    else pushCaptured RW rest
      { st with saved := st.saved + 1, emitted := st.emitted + 1, seen := u :: st.seen }

/-- The fallback anchor scan (lines 283–295), reached when the primary
scan found nothing: keep anchors whose href mentions `job` or `career`,
whose text length is in (5, 200), that are not `javascript:` links,
whose canonical URL is unseen and on `michaelpage.com`. -/
def collectFallbackLinks : List (String × String) → List String → List String × List String
  | [], seen => ([], seen)
  | (h, t) :: rest, seen =>
    if (containsSub h "job" || containsSub h "career") &&
        t.length > 5 && t.length < 200 && !containsSub h "javascript:" then
      let u := fullUrl h
      if u ∉ seen && containsSub u "michaelpage.com" then
        let p := collectFallbackLinks rest (u :: seen)
        (u :: p.1, p.2)
      else collectFallbackLinks rest seen
    else collectFallbackLinks rest seen

/-- The complete link scan of one LIST page: the primary scan, extended
by the fallback scan when it found nothing (lines 258–295). -/
def scanLinks (site : Site) (p : Nat) (seen : List String) : List String × List String :=
  let pr := collectNewLinks (site.hrefs p) seen
  if pr.1.isEmpty then
    let fb := collectFallbackLinks (site.fallback p) pr.2
    (pr.1 ++ fb.1, fb.2)
  else pr

/-- The body of LIST-page handling before the pagination decision
(lines 238–330): captured flush, link scan, then detail enqueue
(`slice(0, min(remaining, 50))`) or URL push (`slice(0, remaining)`).
Returns the updated state together with this page's new links. -/
def listPhase (cfg : Config) (site : Site) (p : Nat) (st : CrawlState) :
    CrawlState × List String :=
  let st1 := pushCaptured cfg.RW (site.captured p) st
  let scan := scanLinks site p st1.seen
  let links := scan.1
  let st2 := { st1 with seen := scan.2 }
  let st3 :=
    if cfg.collectDetails && !links.isEmpty then
      { st2 with queue := st2.queue ++ (links.take (min (cfg.RW - st2.saved) 50)).map Req.detail }
    else if !cfg.collectDetails && !links.isEmpty then
      let toPush := links.take (cfg.RW - st2.saved)
      { st2 with saved := st2.saved + toPush.length, emitted := st2.emitted + toPush.length }
    else st2
  (st3, links)

/-- LIST-page handling (lines 238–343): the body above, then the
pagination decision — the next page is enqueued only when the saved
count is below the target, the page counter is below the cap, and this
page produced at least one new link. -/
def processList (cfg : Config) (site : Site) (p : Nat) (st : CrawlState) : CrawlState :=
  let r := listPhase cfg site p st
  if r.1.saved < cfg.RW && p < cfg.MAXP - 1 && !r.2.isEmpty then
    { r.1 with queue := r.1.queue ++ [Req.list (p + 1)] }
  else r.1

/-- DETAIL-page handling (lines 346–443): the cap check, then — when
the fetch succeeded — the builder behind the title guard; a push
increments the saved count.  A failed fetch reaches only
`failedRequestHandler`, which logs and emits nothing. -/
def processDetail (cfg : Config) (site : Site) (u : String) (st : CrawlState) : CrawlState :=
  if cfg.RW ≤ st.saved then st
  else
    match site.detail u with
    | none => st
    | some page =>
      match detailEmit page u cfg.now with
      | none => st
      | some _ => { st with saved := st.saved + 1, emitted := st.emitted + 1 }

/-- `failedRequestHandler` (`main.js` 450–452, `part_000` 496–498):
logs the failure and changes nothing — no fallback record is emitted. -/
def failedRequestHandler (st : CrawlState) : CrawlState := st

/-- One scheduling step: pop the front request and handle it; a fetched
listing page is counted. -/
def step (cfg : Config) (site : Site) (st : CrawlState) : CrawlState :=
  match st.queue with
  | [] => st
  | .list p :: rest =>
    processList cfg site p { st with queue := rest, pagesFetched := st.pagesFetched + 1 }
  | .detail u :: rest => processDetail cfg site u { st with queue := rest }

/-- Run the crawler for a bounded number of steps. -/
def run (cfg : Config) (site : Site) : Nat → CrawlState → CrawlState
  | 0, st => st
  | n + 1, st => run cfg site n (step cfg site st)

/-- The initial state: the start URL as listing page 0, nothing saved. -/
def initState : CrawlState := ⟨0, 0, [], [Req.list 0], 0⟩

/-- The page numbers of the listing requests in a queue. -/
def listReqs : List Req → List Nat :=
  List.filterMap (fun r => match r with | .list p => some p | .detail _ => none)

/-! ## The hybrid variant's detail phase (`src/unnamed/part_000`
lines 381–501)

Phase 2 queues `jobUrls.slice(0, RESULTS_WANTED)` and runs the detail
crawler with `maxConcurrency: 10`.  Each queued URL is handled at most
once; a handler pushes at most one record (and a failed request reaches
only the logging `failedRequestHandler`).  `outcome u` is the record
the handler for `u` pushes, `none` when the fetch failed, the title
guard skipped it, or the cap check returned early — this per-request
abstraction is independent of how the concurrent handlers interleave. -/
def hybridDetailRecords (RW : Nat) (jobUrls : List String)
    (outcome : String → Option JobRecord) : List JobRecord :=
  (jobUrls.take RW).filterMap outcome

/-- The per-URL outcome when fetches resolve as `fetch` and the handler
runs the builder behind the title guard. -/
def hybridOutcome (fetch : String → Option DetailPage) (now : String)
    (u : String) : Option JobRecord :=
  match fetch u with
  | none => none
  | some page => detailEmit page u now

/-! ## Invariants and normalization predicates -/

/-- Every push is matched by a saved-count increment, and the saved
count never exceeds the target. -/
def capInv (RW : Nat) (st : CrawlState) : Prop :=
  st.emitted = st.saved ∧ st.saved ≤ RW

/-- The pagination invariant: any queued listing request carries the
page number about to be fetched next, at most one listing request is
queued, and the fetched-page count never exceeds the page cap. -/
def pageInv (cfg : Config) (st : CrawlState) : Prop :=
  (∀ p ∈ listReqs st.queue, p = st.pagesFetched ∧ p < cfg.MAXP) ∧
  (listReqs st.queue).length ≤ 1 ∧ st.pagesFetched ≤ cfg.MAXP

/-- No two adjacent whitespace characters. -/
def wsSeparated (l : List Char) : Prop :=
  List.Chain' (fun a b => ¬(isWs a = true ∧ isWs b = true)) l

/-- The first character, if any, is not whitespace. -/
def headNotWs : List Char → Prop
  | [] => True
  | c :: _ => isWs c = false

/-- A fully normalized text: trimmed at both ends with all whitespace
runs collapsed. -/
def NormalizedText (l : List Char) : Prop :=
  headNotWs l ∧ headNotWs l.reverse ∧ wsSeparated l

/-! ## Concrete inputs used by the witnesses and counterexamples -/

/-- A two-page site: page 0 carries one job link, page 1 none. -/
def siteW : Site where
  hrefs := fun n => if n = 0 then ["/job-detail/a"] else []
  fallback := fun _ => []
  captured := fun _ => []
  detail := fun _ => some ⟨some (Json.obj [("title", Json.str "T")]), "h", "tt", "", "", ""⟩

/-- A small configuration: target 2 results, at most 3 pages. -/
def cfgW : Config := ⟨2, 3, true, "t"⟩

/-- A crawl state of `siteW` about to fetch page 1. -/
def stW : CrawlState :=
  ⟨0, 0, ["https://www.michaelpage.com/job-detail/a"], [Req.list 1], 1⟩

/-- A structured posting carrying salary `"A"`. -/
def jSal : Json :=
  Json.obj [("@type", Json.str "JobPosting"), ("title", Json.str "T"),
    ("baseSalary", Json.str "A")]

/-- A detail page whose structured posting carries salary `"A"` while
the page's salary selector text (the listing-level value) reads `"B"`. -/
def pageSalary : DetailPage := ⟨some jSal, "H1", "tt", "", "", "B"⟩

/-- A detail page with no structured block whose salary selector text
reads `"B"`. -/
def pageNoLd : DetailPage := ⟨none, "T", "", "", "", "B"⟩

/-- A Cheerio detail page with no structured data and no page title. -/
def pageNoTitle : CheerioDetailPage := ⟨[], "", "", "", "", ""⟩

/-- A Playwright detail page with no structured data and no title
anywhere. -/
def pageNoTitleP : DetailPage := ⟨none, "", "", "", "", ""⟩

/-- A detail page whose structured block is absent: the built record
carries `company: null`, `location: null` and `salary: null`. -/
def pageSparse : DetailPage := ⟨none, "Engineer", "", "d", "", ""⟩

/-- A structured-data block with a raw newline inside the description
string — invalid JSON that the sanitizer would repair. -/
def malformedLd : String :=
  "\x7b\"@type\":\"JobPosting\",\"title\":\"X\",\"description\":\"a\nb\"\x7d"

/-! # Helper lemmas

## The emit-count invariant (claim C1) -/

theorem pushCaptured_capInv (RW : Nat) (jobs : List String) (st : CrawlState)
    (h : capInv RW st) : capInv RW (pushCaptured RW jobs st) := by
  induction jobs generalizing st with
  | nil => exact h
  | cons u rest ih =>
    simp only [pushCaptured]
    split
    · exact h
    · split
      · exact ih st h
      · exact ih _ ⟨by simp [h.1], by dsimp only; omega⟩

theorem listPhase_capInv (cfg : Config) (site : Site) (p : Nat) (st : CrawlState)
    (h : capInv cfg.RW st) : capInv cfg.RW (listPhase cfg site p st).1 := by
  have h1 := pushCaptured_capInv cfg.RW (site.captured p) st h
  simp only [listPhase]
  split
  · exact h1
  · split
    · obtain ⟨h1e, h1le⟩ := h1
      refine ⟨by simp [h1e], ?_⟩
      dsimp only
      simp only [List.length_take]
      omega
    · exact h1

theorem processList_capInv (cfg : Config) (site : Site) (p : Nat) (st : CrawlState)
    (h : capInv cfg.RW st) : capInv cfg.RW (processList cfg site p st) := by
  have h1 := listPhase_capInv cfg site p st h
  simp only [processList]
  split
  · exact h1
  · exact h1

theorem processDetail_capInv (cfg : Config) (site : Site) (u : String) (st : CrawlState)
    (h : capInv cfg.RW st) : capInv cfg.RW (processDetail cfg site u st) := by
  simp only [processDetail]
  split
  · exact h
  · split
    · exact h
    · split
      · exact h
      · exact ⟨by simp [h.1], by dsimp only; omega⟩

theorem step_capInv (cfg : Config) (site : Site) (st : CrawlState)
    (h : capInv cfg.RW st) : capInv cfg.RW (step cfg site st) := by
  simp only [step]
  split
  · exact h
  · exact processList_capInv cfg site _ _ ⟨h.1, h.2⟩
  · exact processDetail_capInv cfg site _ _ ⟨h.1, h.2⟩

theorem run_capInv (cfg : Config) (site : Site) (fuel : Nat) (st : CrawlState)
    (h : capInv cfg.RW st) : capInv cfg.RW (run cfg site fuel st) := by
  induction fuel generalizing st with
  | zero => exact h
  | succ n ih => exact ih _ (step_capInv cfg site st h)

theorem length_filterMap_le_count {α β : Type} (f : α → Option β) (l : List α) :
    (l.filterMap f).length ≤ (l.filter (fun a => (f a).isSome)).length := by
  induction l with
  | nil => simp
  | cons a rest ih =>
    by_cases hfa : (f a).isSome
    · obtain ⟨b, hb⟩ := Option.isSome_iff_exists.mp hfa
      simp [List.filterMap_cons, List.filter_cons, hb, hfa]
      omega
    · have : f a = none := Option.not_isSome_iff_eq_none.mp hfa
      simp [List.filterMap_cons, List.filter_cons, this, hfa]
      omega

/-! ## Dedup lemmas (claim C2) -/

theorem canonLinks_cons (h : String) (rest : List String) :
    canonLinks (h :: rest) =
      if h ≠ "" && !containsSub h "javascript:" then fullUrl h :: canonLinks rest
      else canonLinks rest := by
  by_cases hc : ¬h = "" ∧ containsSub h "javascript:" = false
  · simp [canonLinks, List.filterMap_cons, hc]
  · simp [canonLinks, List.filterMap_cons, hc]

theorem collectNewLinks_eq (hrefs : List String) (seen : List String) :
    collectNewLinks hrefs seen =
      (uniqueFirstSeen seen (canonLinks hrefs), addAll seen (canonLinks hrefs)) := by
  induction hrefs generalizing seen with
  | nil => simp [collectNewLinks, canonLinks, uniqueFirstSeen, addAll]
  | cons h rest ih =>
    rw [canonLinks_cons]
    simp only [collectNewLinks, Bool.and_eq_true, decide_eq_true_eq, Bool.not_eq_true']
    by_cases hcond : ¬h = "" ∧ containsSub h "javascript:" = false
    · rw [if_pos hcond, if_pos hcond]
      by_cases hmem : fullUrl h ∈ seen
      · rw [if_pos hmem]
        simp only [uniqueFirstSeen, addAll]
        rw [if_pos hmem, if_pos hmem]
        exact ih seen
      · rw [if_neg hmem]
        simp only [uniqueFirstSeen, addAll]
        rw [if_neg hmem, if_neg hmem]
        simp [ih (fullUrl h :: seen)]
    · rw [if_neg hcond, if_neg hcond]
      exact ih seen

theorem uniqueFirstSeen_append (seen l1 l2 : List String) :
    uniqueFirstSeen seen (l1 ++ l2) =
      uniqueFirstSeen seen l1 ++ uniqueFirstSeen (addAll seen l1) l2 := by
  induction l1 generalizing seen with
  | nil => simp [uniqueFirstSeen, addAll]
  | cons u rest ih =>
    simp only [List.cons_append, uniqueFirstSeen, addAll]
    split
    · exact ih seen
    · simp [ih (u :: seen)]

theorem mem_addAll_of_mem {u : String} {seen : List String} (l : List String)
    (h : u ∈ seen) : u ∈ addAll seen l := by
  induction l generalizing seen with
  | nil => exact h
  | cons v rest ih =>
    simp only [addAll]
    split
    · exact ih h
    · exact ih (List.mem_cons_of_mem v h)

theorem not_mem_uniqueFirstSeen {u : String} {seen : List String} (l : List String)
    (h : u ∈ seen) : u ∉ uniqueFirstSeen seen l := by
  induction l generalizing seen with
  | nil => simp [uniqueFirstSeen]
  | cons v rest ih =>
    simp only [uniqueFirstSeen]
    split
    · exact ih h
    · next hv =>
      intro hmem
      rcases List.mem_cons.mp hmem with h1 | h1
      · exact hv (h1 ▸ h)
      · exact ih (List.mem_cons_of_mem v h) h1

theorem nodup_uniqueFirstSeen (l seen : List String) :
    (uniqueFirstSeen seen l).Nodup := by
  induction l generalizing seen with
  | nil => simp [uniqueFirstSeen]
  | cons v rest ih =>
    simp only [uniqueFirstSeen]
    split
    · exact ih seen
    · exact List.nodup_cons.mpr
        ⟨not_mem_uniqueFirstSeen rest (List.mem_cons_self v seen), ih (v :: seen)⟩

theorem discover_eq (pages : List (List String)) (seen : List String) :
    discover pages seen = uniqueFirstSeen seen (canonLinks pages.flatten) := by
  induction pages generalizing seen with
  | nil => simp [discover, uniqueFirstSeen, List.flatten]
  | cons page rest ih =>
    simp only [discover, collectNewLinks_eq, List.flatten_cons]
    rw [ih (addAll seen (canonLinks page))]
    rw [show canonLinks (page ++ rest.flatten) = canonLinks page ++ canonLinks rest.flatten from
      List.filterMap_append _ _ _]
    rw [uniqueFirstSeen_append]

/-! ## Pagination lemmas (claim C4) -/

theorem listReqs_append (q1 q2 : List Req) :
    listReqs (q1 ++ q2) = listReqs q1 ++ listReqs q2 :=
  List.filterMap_append _ _ _

theorem listReqs_map_detail (ds : List String) : listReqs (ds.map Req.detail) = [] := by
  simp [listReqs]

theorem pushCaptured_frame (RW : Nat) (jobs : List String) (st : CrawlState) :
    (pushCaptured RW jobs st).queue = st.queue ∧
    (pushCaptured RW jobs st).pagesFetched = st.pagesFetched := by
  induction jobs generalizing st with
  | nil => exact ⟨rfl, rfl⟩
  | cons u rest ih =>
    simp only [pushCaptured]
    split
    · exact ⟨rfl, rfl⟩
    · split
      · exact ih st
      · exact ih _

theorem listReqs_cons_list (p : Nat) (rest : List Req) :
    listReqs (Req.list p :: rest) = p :: listReqs rest := by
  simp [listReqs]

theorem listReqs_cons_detail (u : String) (rest : List Req) :
    listReqs (Req.detail u :: rest) = listReqs rest := by
  simp [listReqs]

theorem listReqs_listPhase (cfg : Config) (site : Site) (p : Nat) (st : CrawlState) :
    listReqs (listPhase cfg site p st).1.queue = listReqs st.queue := by
  obtain ⟨hq, hpf⟩ := pushCaptured_frame cfg.RW (site.captured p) st
  simp only [listPhase]
  split
  · dsimp only
    rw [listReqs_append, listReqs_map_detail, List.append_nil, hq]
  · split
    · dsimp only
      rw [hq]
    · dsimp only
      rw [hq]

theorem listPhase_pagesFetched (cfg : Config) (site : Site) (p : Nat) (st : CrawlState) :
    (listPhase cfg site p st).1.pagesFetched = st.pagesFetched := by
  obtain ⟨hq, hpf⟩ := pushCaptured_frame cfg.RW (site.captured p) st
  simp only [listPhase]
  split
  · exact hpf
  · split
    · exact hpf
    · exact hpf

theorem processList_frame (cfg : Config) (site : Site) (p : Nat) (st : CrawlState) :
    (processList cfg site p st).pagesFetched = st.pagesFetched := by
  have hpf := listPhase_pagesFetched cfg site p st
  simp only [processList]
  split
  · exact hpf
  · exact hpf

theorem processList_listReqs_cases (cfg : Config) (site : Site) (p : Nat) (st : CrawlState) :
    listReqs (processList cfg site p st).queue = listReqs st.queue ∨
    (listReqs (processList cfg site p st).queue = listReqs st.queue ++ [p + 1] ∧
      (listPhase cfg site p st).1.saved < cfg.RW ∧ p < cfg.MAXP - 1 ∧
      (listPhase cfg site p st).2 ≠ []) := by
  simp only [processList]
  split
  · next hcond =>
    right
    refine ⟨?_, ?_, ?_, ?_⟩
    · dsimp only
      rw [listReqs_append, listReqs_listPhase]
      simp [listReqs]
    · simp only [Bool.and_eq_true, decide_eq_true_eq] at hcond
      exact hcond.1.1
    · simp only [Bool.and_eq_true, decide_eq_true_eq] at hcond
      exact hcond.1.2
    · intro hnil
      rw [hnil] at hcond
      simp at hcond
  · left
    exact listReqs_listPhase cfg site p st

theorem processList_noNext (cfg : Config) (site : Site) (p : Nat) (st : CrawlState)
    (h : (listPhase cfg site p st).2 = []) :
    listReqs (processList cfg site p st).queue = listReqs st.queue := by
  simp only [processList]
  split
  · next hcond =>
    exfalso
    rw [h] at hcond
    simp at hcond
  · exact listReqs_listPhase cfg site p st

theorem processDetail_frame (cfg : Config) (site : Site) (u : String) (st : CrawlState) :
    (processDetail cfg site u st).queue = st.queue ∧
    (processDetail cfg site u st).pagesFetched = st.pagesFetched := by
  simp only [processDetail]
  split
  · exact ⟨rfl, rfl⟩
  · split
    · exact ⟨rfl, rfl⟩
    · split
      · exact ⟨rfl, rfl⟩
      · exact ⟨rfl, rfl⟩

theorem step_pageInv (cfg : Config) (site : Site) (st : CrawlState)
    (h : pageInv cfg st) : pageInv cfg (step cfg site st) := by
  obtain ⟨hall, hlen, hpf⟩ := h
  rcases hq : st.queue with _ | ⟨r, rest⟩
  · simp only [step, hq]
    exact ⟨hall, hlen, hpf⟩
  · rcases r with p | u
    · have hmem : p ∈ listReqs st.queue := by
        rw [hq, listReqs_cons_list]
        exact List.mem_cons_self _ _
      obtain ⟨hp_eq, hp_lt⟩ := hall p hmem
      have hrest : listReqs rest = [] := by
        rw [hq, listReqs_cons_list] at hlen
        rcases hr : listReqs rest with _ | ⟨a, t⟩
        · rfl
        · rw [hr] at hlen
          simp at hlen
      simp only [step, hq]
      have hfr := processList_frame cfg site p
        { st with queue := rest, pagesFetched := st.pagesFetched + 1 }
      rcases processList_listReqs_cases cfg site p
        { st with queue := rest, pagesFetched := st.pagesFetched + 1 } with hc | ⟨hc, _, hlt, _⟩
      · refine ⟨?_, ?_, ?_⟩
        · intro q hiq
          rw [hc] at hiq
          dsimp only at hiq
          rw [hrest] at hiq
          exact absurd hiq (List.not_mem_nil q)
        · rw [hc]
          dsimp only
          rw [hrest]
          simp
        · rw [hfr]
          dsimp only
          omega
      · refine ⟨?_, ?_, ?_⟩
        · intro q hiq
          rw [hc] at hiq
          dsimp only at hiq
          rw [hrest] at hiq
          simp only [List.nil_append, List.mem_singleton] at hiq
          subst hiq
          rw [hfr]
          dsimp only
          omega
        · rw [hc]
          dsimp only
          rw [hrest]
          simp
        · rw [hfr]
          dsimp only
          omega
    · have hrest : listReqs rest = listReqs st.queue := by
        rw [hq, listReqs_cons_detail]
      simp only [step, hq]
      obtain ⟨hqq, hpq⟩ := processDetail_frame cfg site u { st with queue := rest }
      refine ⟨?_, ?_, ?_⟩
      · intro q hiq
        rw [hqq] at hiq
        dsimp only at hiq
        rw [hrest] at hiq
        obtain ⟨he, hl⟩ := hall q hiq
        refine ⟨?_, hl⟩
        rw [hpq]
        dsimp only
        exact he
      · rw [hqq]
        dsimp only
        rw [hrest]
        exact hlen
      · rw [hpq]
        dsimp only
        exact hpf

theorem run_pageInv (cfg : Config) (site : Site) (fuel : Nat) (st : CrawlState)
    (h : pageInv cfg st) : pageInv cfg (run cfg site fuel st) := by
  induction fuel generalizing st with
  | zero => exact h
  | succ n ih => exact ih _ (step_pageInv cfg site st h)

theorem noList_step (cfg : Config) (site : Site) (st : CrawlState)
    (h : listReqs st.queue = []) :
    listReqs (step cfg site st).queue = [] ∧
    (step cfg site st).pagesFetched = st.pagesFetched := by
  rcases hq : st.queue with _ | ⟨r, rest⟩
  · simp only [step, hq]
    exact ⟨by rw [← hq]; exact h, trivial⟩
  · rcases r with p | u
    · exfalso
      rw [hq, listReqs_cons_list] at h
      exact List.cons_ne_nil _ _ h
    · simp only [step, hq]
      obtain ⟨hqq, hpq⟩ := processDetail_frame cfg site u { st with queue := rest }
      rw [hq, listReqs_cons_detail] at h
      exact ⟨by rw [hqq]; exact h, by rw [hpq]⟩

theorem noList_run (cfg : Config) (site : Site) (fuel : Nat) (st : CrawlState)
    (h : listReqs st.queue = []) :
    (run cfg site fuel st).pagesFetched = st.pagesFetched := by
  induction fuel generalizing st with
  | zero => rfl
  | succ n ih =>
    obtain ⟨h1, h2⟩ := noList_step cfg site st h
    rw [run, ih _ h1, h2]

/-! # Claim theorems -/

/-- C1: For every run of the sequential crawler each record push is
matched by a saved-count increment behind a cap check, so the number of
records emitted to the dataset never exceeds the configured target
`results_wanted` — across API-captured pushes, URL-only pushes and
detail pushes, over any number of listing pages.  In the hybrid
variant's concurrent detail phase, only the first `results_wanted`
discovered URLs are queued and each queued URL pushes at most one
record, so the bound holds there regardless of how the concurrent
detail fetches interleave. -/
theorem cap_invariant :
    (∀ (cfg : Config) (site : Site) (fuel : Nat) (q : List Req),
      (run cfg site fuel
        { saved := 0, emitted := 0, seen := [], queue := q, pagesFetched := 0 }).emitted ≤
        cfg.RW) ∧
    (∀ (RW : Nat) (jobUrls : List String) (outcome : String → Option JobRecord),
      (hybridDetailRecords RW jobUrls outcome).length ≤ RW) := by
  constructor
  · intro cfg site fuel q
    have h := run_capInv cfg site fuel
      { saved := 0, emitted := 0, seen := [], queue := q, pagesFetched := 0 }
      ⟨rfl, Nat.zero_le _⟩
    exact h.1 ▸ h.2
  · intro RW jobUrls outcome
    calc (hybridDetailRecords RW jobUrls outcome).length
        ≤ (jobUrls.take RW).length := List.length_filterMap_le _ _
      _ ≤ RW := List.length_take_le _ _

/-- C2: For any sequence of listing pages, the discovery phase emits
exactly the first-seen deduplication of the canonicalized anchors: no
canonical URL appears twice, URLs already in the seen index are
skipped, and repeated rows within or across pages contribute exactly
one entry, in first-seen order. -/
theorem discovery_dedup :
    (∀ (pages : List (List String)) (seen : List String),
      discover pages seen = uniqueFirstSeen seen (canonLinks pages.flatten)) ∧
    (∀ (pages : List (List String)) (seen : List String), (discover pages seen).Nodup) ∧
    (∀ (pages : List (List String)) (seen : List String) (u : String),
      u ∈ seen → u ∉ discover pages seen) := by
  refine ⟨discover_eq, ?_, ?_⟩
  · intro pages seen
    rw [discover_eq]
    exact nodup_uniqueFirstSeen _ _
  · intro pages seen u hu
    rw [discover_eq]
    exact not_mem_uniqueFirstSeen _ hu

/-- Witness for C2, realizing the spec's duplicate-rows scenario: two
pages sharing one URL yield exactly three unique URLs in first-seen
order, and a URL already in the seen index never reappears. -/
theorem discovery_dedup_witness :
    "u0" ∈ (["u0"] : List String) ∧
    "u0" ∉ discover [["/job-detail/a"]] ["u0"] ∧
    discover [["/job-detail/a", "/job-detail/b"], ["/job-detail/a", "/job-detail/c"]] [] =
      ["https://www.michaelpage.com/job-detail/a",
       "https://www.michaelpage.com/job-detail/b",
       "https://www.michaelpage.com/job-detail/c"] ∧
    (discover [["/job-detail/a", "/job-detail/b"], ["/job-detail/a", "/job-detail/c"]] []).Nodup := by
  refine ⟨by decide, discovery_dedup.2.2 _ _ "u0" (by decide), by decide, discovery_dedup.2.1 _ _⟩

/-- C4: Pagination fetches at most `MAX_PAGES` listing pages; as soon
as a fetched page yields zero new job links the crawl fetches no
further listing page; and a next listing page is enqueued only when the
saved count is below the target, the page counter is below the cap, and
the current page produced at least one new link. -/
theorem pagination_bounded :
    (∀ (cfg : Config) (site : Site) (fuel : Nat), 1 ≤ cfg.MAXP →
      (run cfg site fuel initState).pagesFetched ≤ cfg.MAXP) ∧
    (∀ (cfg : Config) (site : Site) (st : CrawlState) (p : Nat) (rest : List Req) (fuel : Nat),
      st.queue = Req.list p :: rest → listReqs rest = [] →
      (listPhase cfg site p { st with queue := rest, pagesFetched := st.pagesFetched + 1 }).2 = [] →
      (run cfg site fuel (step cfg site st)).pagesFetched = st.pagesFetched + 1) ∧
    (∀ (cfg : Config) (site : Site) (p : Nat) (st : CrawlState),
      listReqs (processList cfg site p st).queue = listReqs st.queue ∨
      (listReqs (processList cfg site p st).queue = listReqs st.queue ++ [p + 1] ∧
        (listPhase cfg site p st).1.saved < cfg.RW ∧ p < cfg.MAXP - 1 ∧
        (listPhase cfg site p st).2 ≠ [])) := by
  refine ⟨?_, ?_, processList_listReqs_cases⟩
  · intro cfg site fuel hM
    refine (run_pageInv cfg site fuel initState ⟨?_, ?_, ?_⟩).2.2
    · intro p hp
      simp only [initState, listReqs, List.filterMap_cons, List.filterMap_nil] at hp
      simp at hp
      subst hp
      exact ⟨rfl, by omega⟩
    · simp [initState, listReqs]
    · exact Nat.zero_le _
  · intro cfg site st p rest fuel hqeq hrest hzero
    have hstep : step cfg site st =
        processList cfg site p { st with queue := rest, pagesFetched := st.pagesFetched + 1 } := by
      simp only [step, hqeq]
    rw [hstep]
    have hnl : listReqs (processList cfg site p
        { st with queue := rest, pagesFetched := st.pagesFetched + 1 }).queue = [] := by
      rw [processList_noNext _ _ _ _ hzero]
      dsimp only
      exact hrest
    rw [noList_run cfg site fuel _ hnl, processList_frame]

/-- Witness for C4: on a site whose second page is empty the crawl
performs 2 of the allowed 3 page fetches — stopping strictly early —
and a state about to fetch an empty page fetches exactly that one page
and no more. -/
theorem pagination_bounded_witness :
    1 ≤ cfgW.MAXP ∧
    (run cfgW siteW 10 initState).pagesFetched ≤ cfgW.MAXP ∧
    (run cfgW siteW 10 initState).pagesFetched = 2 ∧
    stW.queue = Req.list 1 :: [] ∧
    (listPhase cfgW siteW 1 { stW with queue := [], pagesFetched := stW.pagesFetched + 1 }).2 = [] ∧
    (run cfgW siteW 5 (step cfgW siteW stW)).pagesFetched = stW.pagesFetched + 1 := by
  refine ⟨by decide, pagination_bounded.1 cfgW siteW 10 (by decide), by decide, rfl, by decide,
    pagination_bounded.2.1 cfgW siteW stW 1 [] 5 rfl rfl (by decide)⟩

/-- Filtering with a weaker predicate keeps at least as many elements. -/
theorem length_filter_mono {α : Type} (p q : α → Bool) (l : List α)
    (h : ∀ a, p a = true → q a = true) :
    (l.filter p).length ≤ (l.filter q).length := by
  induction l with
  | nil => simp
  | cons a rest ih =>
    by_cases hp : p a = true
    · simp only [List.filter_cons, hp, h a hp, if_true, List.length_cons]
      omega
    · simp only [List.filter_cons, hp, if_false, Bool.false_eq_true]
      split
      · simp only [List.length_cons]
        omega
      · exact ih

/-- C5 counterexample: a run that discovered one URL whose detail fetch
fails delivers zero records, not one — `failedRequestHandler` only logs
and no stub-fallback record is ever pushed. -/
theorem detail_failure_counterexample :
    hybridDetailRecords 5 ["https://www.michaelpage.com/job-detail/x"]
      (hybridOutcome (fun _ => none) "t") = [] ∧
    (hybridDetailRecords 5 ["https://www.michaelpage.com/job-detail/x"]
      (hybridOutcome (fun _ => none) "t")).length ≠ 1 := by
  exact ⟨rfl, by decide⟩

/-- C5 (amended): a failed detail fetch contributes nothing — the
failure handler leaves the state untouched, and the records delivered
are at most the successfully fetched URLs among the first
`results_wanted` discovered; URLs whose fetch fails are dropped, not
degraded to stub-only records. -/
theorem detail_failure_amended :
    (∀ st : CrawlState, failedRequestHandler st = st) ∧
    (∀ (RW : Nat) (urls : List String) (fetch : String → Option DetailPage) (now : String),
      (hybridDetailRecords RW urls (hybridOutcome fetch now)).length ≤
        ((urls.take RW).filter (fun u => (fetch u).isSome)).length) := by
  refine ⟨fun st => rfl, ?_⟩
  intro RW urls fetch now
  calc (hybridDetailRecords RW urls (hybridOutcome fetch now)).length
      ≤ ((urls.take RW).filter (fun u => (hybridOutcome fetch now u).isSome)).length :=
        length_filterMap_le_count _ _
    _ ≤ ((urls.take RW).filter (fun u => (fetch u).isSome)).length := by
        apply length_filter_mono
        intro u hu
        simp only [hybridOutcome] at hu
        rcases hf : fetch u with _ | page
        · rw [hf] at hu
          simp at hu
        · simp

/-- C6 counterexample: on a page whose structured posting carries
salary `"A"` and whose page-level (listing-derived) salary text reads
`"B"`, the emitted record's salary is `"A"` — the structured posting
wins, not the listing value. -/
theorem salary_precedence_counterexample :
    (buildDetailData pageSalary "u" "t").salary = Json.str "A" ∧
    (buildDetailData pageSalary "u" "t").salary ≠ Json.str "B" := by
  refine ⟨rfl, ?_⟩
  intro h
  rw [show (buildDetailData pageSalary "u" "t").salary = Json.str "A" from rfl] at h
  injection h with h2
  exact absurd h2 (by decide)

/-- C6 (amended): salary precedence is structured-posting-first — a
non-empty string `baseSalary` in the structured posting becomes the
record's salary regardless of the page's salary text, and the page's
salary selector text is consulted only when the structured posting
yields no salary (for instance when no structured block parsed). -/
theorem jGetOpt_some (j : Json) (k : String) : jGetOpt (some j) k = jGet j k := rfl

theorem jGetOpt_none (k : String) : jGetOpt none k = none := rfl

theorem salary_precedence_amended :
    (∀ (p : DetailPage) (url now : String) (j : Json) (s : String),
      p.jsonLd = some j → jGet j "baseSalary" = some (Json.str s) → s ≠ "" →
      (buildDetailData p url now).salary = Json.str s) ∧
    (∀ (p : DetailPage) (url now : String), p.jsonLd = none →
      (buildDetailData p url now).salary = strOrNull p.salaryFallback) := by
  constructor
  · intro p url now j s hld hbs hs
    have hget : jGetOpt p.jsonLd "baseSalary" = some (Json.str s) := by
      rw [hld, jGetOpt_some, hbs]
    simp only [buildDetailData, salaryOf, hget]
    simp [jsTruthy, hs]
  · intro p url now hld
    have hget : jGetOpt p.jsonLd "baseSalary" = none := by rw [hld, jGetOpt_none]
    simp only [buildDetailData, salaryOf, hget]

/-- Witness for C6 (amended): the structured salary `"A"` of
`pageSalary` wins; with no structured block, `pageNoLd`'s page text
`"B"` is used. -/
theorem salary_precedence_witness :
    pageSalary.jsonLd = some jSal ∧
    jGet jSal "baseSalary" = some (Json.str "A") ∧
    (buildDetailData pageSalary "u" "t").salary = Json.str "A" ∧
    pageNoLd.jsonLd = none ∧
    (buildDetailData pageNoLd "u" "t").salary = strOrNull "B" := by
  refine ⟨rfl, rfl, ?_, rfl, ?_⟩
  · exact salary_precedence_amended.1 pageSalary "u" "t" jSal "A" rfl rfl (by decide)
  · exact salary_precedence_amended.2 pageNoLd "u" "t" rfl

/-- C7 counterexample: the Cheerio variant has no title guard — the
record built from a page with no usable title is still pushed, with
`title: null`, instead of being skipped. -/
theorem title_guard_counterexample :
    cheerioDetailHandler 10 0 "" pageNoTitle "u" =
      some (cheerioDetailItem "" pageNoTitle "u") ∧
    (cheerioDetailItem "" pageNoTitle "u").title = Json.null := by
  exact ⟨rfl, rfl⟩

/-- C7 (amended): in the Playwright variants a record whose title came
out falsy is skipped — not emitted, and the saved count unchanged; the
Cheerio variant, by contrast, emits the record with a null title. -/
theorem title_guard_amended :
    (∀ (p : DetailPage) (url now : String),
      jsTruthy (titleOf p) = false → detailEmit p url now = none) ∧
    (∀ (cfg : Config) (site : Site) (u : String) (st : CrawlState) (page : DetailPage),
      site.detail u = some page → detailEmit page u cfg.now = none →
      processDetail cfg site u st = st) ∧
    cheerioDetailHandler 10 0 "" pageNoTitle "u" =
      some (cheerioDetailItem "" pageNoTitle "u") := by
  refine ⟨?_, ?_, rfl⟩
  · intro p url now h
    have hnull : jsTruthy Json.null = false := rfl
    simp [detailEmit, buildDetailData, h, hnull]
  · intro cfg site u st page hdet hem
    simp only [processDetail, hdet, hem]
    split
    · rfl
    · rfl

/-- Witness for C7 (amended): a detail page with no title anywhere is
skipped by the Playwright builder and leaves the crawl state untouched. -/
theorem title_guard_witness :
    jsTruthy (titleOf pageNoTitleP) = false ∧
    detailEmit pageNoTitleP "u" "t" = none ∧
    processDetail cfgW { siteW with detail := fun _ => some pageNoTitleP } "u" stW = stW := by
  refine ⟨by decide, title_guard_amended.1 pageNoTitleP "u" "t" (by decide), ?_⟩
  exact title_guard_amended.2.1 cfgW { siteW with detail := fun _ => some pageNoTitleP } "u" stW
    pageNoTitleP rfl (title_guard_amended.1 pageNoTitleP "u" cfgW.now (by decide))

/-- C3 (code bug): the record pushed for `pageSparse` is emitted with
null-valued keys (`company`, `location`, `salary`), although the
repository's README states that null and undefined values are removed
before data is saved; no pruning pass exists anywhere under `src/`.
The Cheerio variant's item likewise carries nulls. -/
theorem null_fields_emitted :
    detailEmit pageSparse "u" "t" = some (buildDetailData pageSparse "u" "t") ∧
    (buildDetailData pageSparse "u" "t").company = Json.null ∧
    (buildDetailData pageSparse "u" "t").salary = Json.null ∧
    (buildDetailData pageSparse "u" "t").location = Json.null ∧
    (cheerioDetailItem "" pageNoTitle "u").company = Json.null := by
  exact ⟨rfl, rfl, rfl, rfl, rfl⟩

/-- On text with no raw control characters inside string literals, the
sanitizer's character walk is the identity, from any machine state. -/
theorem sanitizeChars_of_clean (l : List Char) :
    ∀ inStr esc : Bool, cleanChars inStr esc l = true → sanitizeChars inStr esc l = l := by
  induction l with
  | nil => intro inStr esc _; rfl
  | cons c rest ih =>
    intro inStr esc hc
    simp only [cleanChars] at hc
    simp only [sanitizeChars]
    cases inStr
    · simp only [Bool.false_eq_true, if_false] at hc ⊢
      by_cases hq : c = '"'
      · rw [if_pos hq] at hc
        rw [if_pos hq]
        exact congrArg _ (ih _ _ hc)
      · rw [if_neg hq] at hc
        rw [if_neg hq]
        exact congrArg _ (ih _ _ hc)
    · simp only [if_true] at hc ⊢
      cases esc
      · simp only [Bool.false_eq_true, if_false] at hc ⊢
        by_cases hb : c = '\\'
        · rw [if_pos hb] at hc
          rw [if_pos hb]
          exact congrArg _ (ih _ _ hc)
        · rw [if_neg hb] at hc
          rw [if_neg hb]
          by_cases hq : c = '"'
          · rw [if_pos hq] at hc
            rw [if_pos hq]
            exact congrArg _ (ih _ _ hc)
          · rw [if_neg hq] at hc
            rw [if_neg hq]
            by_cases hctl : isCtlTarget c = true
            · rw [if_pos hctl] at hc
              exact absurd hc (by simp)
            · rw [if_neg hctl] at hc
              simp only [isCtlTarget, Bool.or_eq_true, decide_eq_true_eq, not_or] at hctl
              obtain ⟨⟨⟨⟨h1, h2⟩, h3⟩, h4⟩, h5⟩ := hctl
              rw [if_neg h1, if_neg h2, if_neg h3, if_neg h4, if_neg h5]
              exact congrArg _ (ih _ _ hc)
      · simp only [if_true] at hc ⊢
        exact congrArg _ (ih _ _ hc)

/-- The sanitizer is the identity on strings with no raw control
characters inside string literals. -/
theorem sanitize_clean (s : String) (h : cleanJsonText s = true) : sanitize s = s := by
  unfold sanitize
  rw [sanitizeChars_of_clean s.data false false h]

/-- C8 counterexample: on a structured-data block with a raw newline
inside a string, the extractor in `src/` skips the block outright
(`extractFromJsonLd` yields nothing), while the spec's
sanitize-and-retry extractor recovers a full posting — the code
performs no sanitization retry. -/
theorem sanitizer_retry_counterexample :
    extractFromJsonLd [malformedLd] = none ∧
    extractFromJsonLdSpec [malformedLd] =
      some ⟨Json.str "X", Json.null, Json.null, Json.str "a\nb", Json.null, Json.null,
        Json.null⟩ := by
  exact ⟨rfl, rfl⟩

/-- C8 (amended): a structured-data block that fails to parse is
skipped immediately with no sanitization retry — no sanitizer exists in
`src/`; the spec-modelled sanitizer itself is indeed a no-op on text
with no raw control characters inside string literals. -/
theorem sanitizer_amended :
    extractFromJsonLd [malformedLd] = none ∧
    (∀ s : String, cleanJsonText s = true → sanitize s = s) := by
  exact ⟨rfl, sanitize_clean⟩

/-- Witness for C8 (amended): a well-formed block is untouched by the
sanitizer. -/
theorem sanitizer_amended_witness :
    cleanJsonText "\x7b\"a\":\"b\"\x7d" = true ∧
    sanitize "\x7b\"a\":\"b\"\x7d" = "\x7b\"a\":\"b\"\x7d" := by
  exact ⟨by decide, sanitizer_amended.2 _ (by decide)⟩

/-- After a whitespace run was just collapsed, the next emitted
character is not whitespace. -/
theorem head_collapseWsAux_true (l : List Char) :
    ∀ c, (collapseWsAux true l).head? = some c → isWs c = false := by
  induction l with
  | nil => intro c h; simp [collapseWsAux] at h
  | cons a rest ih =>
    intro c h
    by_cases ha : isWs a = true
    · simp only [collapseWsAux, ha, if_true] at h
      exact ih c h
    · simp only [collapseWsAux, ha, Bool.false_eq_true, if_false] at h
      simp only [List.head?_cons, Option.some.injEq] at h
      subst h
      simpa using ha

/-- The collapse pass leaves no two adjacent whitespace characters. -/
theorem wsSeparated_collapseWsAux (l : List Char) :
    ∀ b, wsSeparated (collapseWsAux b l) := by
  induction l with
  | nil => intro b; exact List.chain'_nil
  | cons a rest ih =>
    intro b
    by_cases ha : isWs a = true
    · cases b
      · simp only [collapseWsAux, ha, if_true, Bool.false_eq_true, if_false]
        apply List.chain'_cons'.mpr
        refine ⟨?_, ih true⟩
        intro y hy
        rw [Option.mem_def] at hy
        intro hpair
        exact absurd hpair.2 (by simp [head_collapseWsAux_true rest y hy])
      · simp only [collapseWsAux, ha, if_true]
        exact ih true
    · simp only [collapseWsAux, ha, Bool.false_eq_true, if_false]
      apply List.chain'_cons'.mpr
      refine ⟨?_, ih false⟩
      intro y hy
      intro hpair
      exact absurd hpair.1 (by simp [ha])

/-- Dropping a whitespace prefix leaves a non-whitespace head. -/
theorem headNotWs_dropWhile (l : List Char) : headNotWs (l.dropWhile isWs) := by
  induction l with
  | nil => trivial
  | cons a rest ih =>
    by_cases ha : isWs a = true
    · rw [List.dropWhile_cons, if_pos ha]
      exact ih
    · rw [List.dropWhile_cons, if_neg ha]
      show isWs a = false
      simpa using ha

/-- Whitespace separation survives dropping a prefix. -/
theorem wsSeparated_dropWhile (p : Char → Bool) :
    ∀ l : List Char, wsSeparated l → wsSeparated (l.dropWhile p) := by
  intro l
  induction l with
  | nil => intro h; exact h
  | cons a rest ih =>
    intro h
    by_cases ha : p a = true
    · rw [List.dropWhile_cons, if_pos ha]
      exact ih (List.Chain'.tail h)
    · rw [List.dropWhile_cons, if_neg ha]
      exact h

/-- Whitespace separation is symmetric under reversal. -/
theorem wsSeparated_reverse (l : List Char) (h : wsSeparated l) : wsSeparated l.reverse := by
  rw [wsSeparated, List.chain'_reverse]
  exact List.Chain'.imp (fun a b hab hp => hab ⟨hp.2, hp.1⟩) h

/-- A prefix of a text with a non-whitespace head has one too. -/
theorem headNotWs_of_prefix {l1 l2 : List Char} (hp : l1 <+: l2) (h : headNotWs l2) :
    headNotWs l1 := by
  cases l1 with
  | nil => trivial
  | cons a t =>
    obtain ⟨r, hr⟩ := hp
    rw [← hr] at h
    exact h

/-- Trimming yields a prefix of the left-trimmed text. -/
theorem trimChars_prefixOf (l : List Char) : trimChars l <+: l.dropWhile isWs := by
  unfold trimChars
  have h1 : ((l.dropWhile isWs).reverse.dropWhile isWs) <:+ (l.dropWhile isWs).reverse :=
    List.dropWhile_suffix _
  have h2 := List.reverse_prefix.mpr h1
  rwa [List.reverse_reverse] at h2

/-- Trimming a whitespace-separated text yields a fully normalized one. -/
theorem normalizedText_trimChars (l : List Char) (h : wsSeparated l) :
    NormalizedText (trimChars l) := by
  refine ⟨?_, ?_, ?_⟩
  · exact headNotWs_of_prefix (trimChars_prefixOf l) (headNotWs_dropWhile l)
  · unfold trimChars
    rw [List.reverse_reverse]
    exact headNotWs_dropWhile _
  · unfold trimChars
    apply wsSeparated_reverse
    apply wsSeparated_dropWhile
    apply wsSeparated_reverse
    exact wsSeparated_dropWhile _ _ h

/-- The output of `normalizeWs` is fully normalized. -/
theorem normalized_normalizeWs (s : String) : NormalizedText (normalizeWs s).data :=
  normalizedText_trimChars _ (wsSeparated_collapseWsAux s.data false)

/-- C9: `cleanText` is total — it returns the empty string for
null/undefined or empty input, falls back to regex tag stripping when
the HTML parse throws, and in every case the result is trimmed with all
whitespace runs collapsed to single spaces. -/
theorem cleanText_total :
    (∀ parse, cleanTextJS none parse = "") ∧
    (∀ parse, cleanTextJS (some "") parse = "") ∧
    (∀ (h : String) (parse : String → Except Unit String), h ≠ "" → parse h = .error () →
      cleanTextJS (some h) parse = normalizeWs (stripTags h)) ∧
    (∀ (html : Option String) (parse : String → Except Unit String),
      NormalizedText (cleanTextJS html parse).data) := by
  refine ⟨fun _ => rfl, fun _ => rfl, ?_, ?_⟩
  · intro h parse hne hperr
    simp [cleanTextJS, hne, hperr]
  · intro html parse
    match html with
    | none => exact ⟨trivial, trivial, List.chain'_nil⟩
    | some h =>
      by_cases hne : h = ""
      · subst hne
        exact ⟨trivial, trivial, List.chain'_nil⟩
      · simp only [cleanTextJS, if_neg hne]
        match hp : parse h with
        | .ok t => exact normalized_normalizeWs t
        | .error e => exact normalized_normalizeWs _

/-- Witness for C9: a failing parse falls back to tag stripping, and a
raw multi-space input comes out collapsed and trimmed. -/
theorem cleanText_total_witness :
    ("<p>a</p>" ≠ "") ∧
    (fun (_ : String) => (Except.error () : Except Unit String)) "<p>a</p>" = .error () ∧
    cleanTextJS (some "<p>a</p>") (fun _ => Except.error ()) = normalizeWs (stripTags "<p>a</p>") ∧
    cleanTextJS (some "<p>a</p>") (fun _ => Except.error ()) = "a" ∧
    NormalizedText (cleanTextJS (some " x  y ") (fun s => Except.ok s)).data := by
  refine ⟨by decide, rfl, cleanText_total.2.2.1 _ _ (by decide) rfl, by decide,
    cleanText_total.2.2.2 _ _⟩

/-- C10: input normalization is asymmetric between the two caps — a
finite `results_wanted` becomes `max 1 n` (zero and negatives become
1), a non-numeric one becomes `Number.MAX_SAFE_INTEGER` (no cap), while
a non-numeric `max_pages` falls back to the finite default 999. -/
theorem input_caps_asymmetric :
    (∀ n : Int, effectiveResultsWanted (some n) = max 1 n) ∧
    (∀ n : Int, n ≤ 0 → effectiveResultsWanted (some n) = 1) ∧
    effectiveResultsWanted none = 2 ^ 53 - 1 ∧
    effectiveMaxPages none = 999 ∧
    (∀ n : Int, n ≤ 0 → effectiveMaxPages (some n) = 1) := by
  refine ⟨fun n => rfl, ?_, rfl, rfl, ?_⟩
  · intro n hn
    simp only [effectiveResultsWanted]
    omega
  · intro n hn
    simp only [effectiveMaxPages]
    omega

/-- Witness for C10 at concrete inputs. -/
theorem input_caps_witness :
    ((-5 : Int) ≤ 0) ∧ effectiveResultsWanted (some (-5)) = 1 ∧
    ((0 : Int) ≤ 0) ∧ effectiveMaxPages (some 0) = 1 ∧
    effectiveResultsWanted none = 9007199254740991 ∧ effectiveMaxPages none = 999 := by
  refine ⟨by decide, input_caps_asymmetric.2.1 (-5) (by decide), by decide,
    input_caps_asymmetric.2.2.2.2 0 (by decide), by decide, rfl⟩
